import Mathlib

/-!
Verification of the chacrab vault: data model, vault service, sync engine and
backup codec, embedded shallowly from the Rust sources.

Conventions of the embedding:
* `uuid::Uuid` is modelled as `Nat` (only identity matters).
* `chrono::DateTime<Utc>` is modelled as `Int` (a totally ordered timestamp).
* `Vec<u8>` / `[u8; 12]` are modelled as `List Nat`.
* `u64` counters are modelled as `Nat`; `saturating_add(1)` is modelled
  explicitly as `min (v + 1) u64Max`.
* A `VaultRepository` is modelled as a keyed store over two lists (items and
  tombstones), with the write operations total, matching the in-memory
  repository the sync engine is written against; the SQLite `delete_item`
  (which fails with `NotFound` when it deletes no row) is modelled separately
  where a claim depends on it.
-/

set_option autoImplicit false

namespace Chacrab

/-- item identifiers (`uuid::Uuid`). -/
abbrev Uuid := Nat

/-- UTC timestamps (`chrono::DateTime<Utc>`), modelled as integers. -/
abbrev Time := Int

/-- byte strings (`Vec<u8>`). -/
abbrev Bytes := List Nat

/-- `VaultItemType` from `core/models.rs`. -/
inductive VaultItemType
  | password
  | note
deriving DecidableEq, Repr

/-- `VaultItem` from `core/models.rs`. -/
structure VaultItem where
  id : Uuid
  itemType : VaultItemType
  title : String
  username : Option String
  url : Option String
  encrypted_data : Bytes
  nonce : Bytes
  sync_version : Nat
  created_at : Time
  updated_at : Time
deriving DecidableEq, Repr

/-- `SyncTombstone` from `core/models.rs`. -/
structure SyncTombstone where
  id : Uuid
  deleted_at : Time
  sync_version : Nat
deriving DecidableEq, Repr

/-- the error enumeration from `core/errors.rs` (the variants the verified
operations can produce). -/
inductive ChacrabError
  | InvalidCredentials
  | NoActiveSession
  | NotFound
  | Config (msg : String)
  | Crypto
  | Serialization
  | Storage
deriving DecidableEq, Repr

/-- the tagged per-side sync state from `sync/sync_engine.rs`. -/
inductive SyncState
  | Item (v : VaultItem)
  | Tombstone (t : SyncTombstone)
deriving DecidableEq, Repr

/-- `SyncReport` from `sync/sync_engine.rs`. -/
structure SyncReport where
  uploaded : Nat
  downloaded : Nat
  conflicts : Nat
  replay_blocked : Nat
  conflict_ids : List Uuid
deriving DecidableEq, Repr

/-- `SyncReport::default()`. -/
def SyncReport.empty : SyncReport := ⟨0, 0, 0, 0, []⟩

/-- `Resolution` from `sync/sync_engine.rs`. -/
structure Resolution where
  winner : SyncState
  conflict : Bool
  replay_blocked : Bool
deriving DecidableEq, Repr

/-- `SyncEngine::validate_encrypted_blob_only`: non-empty ciphertext and a
12-byte nonce. -/
def validate_encrypted_blob_only (item : VaultItem) : Bool :=
  !item.encrypted_data.isEmpty && item.nonce.length == 12

/-- `SyncEngine::same_item`: field-by-field equality of two items. -/
def same_item (left right : VaultItem) : Bool :=
  left.id == right.id &&
  left.itemType == right.itemType &&
  left.title == right.title &&
  left.username == right.username &&
  left.url == right.url &&
  left.encrypted_data == right.encrypted_data &&
  left.nonce == right.nonce &&
  left.sync_version == right.sync_version &&
  left.created_at == right.created_at &&
  left.updated_at == right.updated_at

/-- `SyncEngine::state_matches_winner`. -/
def state_matches_winner : Option SyncState → SyncState → Bool
  | some (.Item left), .Item right => same_item left right
  | some (.Tombstone left), .Tombstone right => left == right
  | _, _ => false

/-- `SyncEngine::state_equivalent`. -/
def state_equivalent : SyncState → SyncState → Bool
  | .Item left, .Item right => same_item left right
  | .Tombstone left, .Tombstone right => left == right
  | _, _ => false

/-- `SyncEngine::state_version`. -/
def state_version : SyncState → Nat
  | .Item item => item.sync_version
  | .Tombstone tombstone => tombstone.sync_version

/-- `SyncEngine::state_timestamp`. -/
def state_timestamp : SyncState → Time
  | .Item item => item.updated_at
  | .Tombstone tombstone => tombstone.deleted_at

/-- the id carried by a sync state. -/
def state_id : SyncState → Uuid
  | .Item item => item.id
  | .Tombstone tombstone => tombstone.id

/-- lexicographic `>=` on byte strings, as Rust's derived `Ord` on `Vec<u8>`
compares slices. -/
def bytes_ge : Bytes → Bytes → Bool
  | _, [] => true
  | [], _ :: _ => false
  | a :: as_, b :: bs => if b < a then true else if a < b then false else bytes_ge as_ bs

/-- `SyncEngine::resolve_state`: conflict resolution for one id given the two
per-side states. -/
def resolve_state : Option SyncState → Option SyncState → Option Resolution
  | none, none => none
  | some state, none => some ⟨state, false, false⟩
  | none, some state => some ⟨state, false, false⟩
  | some local_state, some remote_state =>
    if state_equivalent local_state remote_state then
      some ⟨local_state, false, false⟩
    else if state_version remote_state < state_version local_state then
      some ⟨local_state, true, true⟩
    else if state_version local_state < state_version remote_state then
      some ⟨remote_state, true, false⟩
    else if state_timestamp remote_state < state_timestamp local_state then
      some ⟨local_state, true, false⟩
    else if state_timestamp local_state < state_timestamp remote_state then
      some ⟨remote_state, true, false⟩
    else
      match local_state, remote_state with
      | .Tombstone _, .Item _ => some ⟨local_state, true, false⟩
      | .Item _, .Tombstone _ => some ⟨remote_state, true, false⟩
      | .Item local_item, .Item remote_item =>
        if bytes_ge local_item.encrypted_data remote_item.encrypted_data then
          some ⟨local_state, true, false⟩
        else
          some ⟨remote_state, true, false⟩
      | .Tombstone _, .Tombstone _ => some ⟨local_state, true, false⟩

/-- a vault repository: a keyed store of items and tombstones (the semantics
of the `VaultRepository` trait). -/
structure Repo where
  items : List VaultItem
  tombstones : List SyncTombstone
deriving DecidableEq, Repr

/-- `upsert_item`: replace any item stored under the same id, else insert. -/
def upsert_item (r : Repo) (item : VaultItem) : Repo :=
  ⟨r.items.filter (fun x => x.id != item.id) ++ [item], r.tombstones⟩

/-- `delete_item` (total form, as the in-memory repository). -/
def delete_item (r : Repo) (i : Uuid) : Repo :=
  ⟨r.items.filter (fun x => x.id != i), r.tombstones⟩

/-- `upsert_tombstone`. -/
def upsert_tombstone (r : Repo) (t : SyncTombstone) : Repo :=
  ⟨r.items, r.tombstones.filter (fun x => x.id != t.id) ++ [t]⟩

/-- `delete_tombstone`. -/
def delete_tombstone (r : Repo) (i : Uuid) : Repo :=
  ⟨r.items, r.tombstones.filter (fun x => x.id != i)⟩

/-- the item stored under an id, if any. -/
def get_item (r : Repo) (i : Uuid) : Option VaultItem :=
  r.items.find? (fun x => x.id == i)

/-- the tombstone stored under an id, if any. -/
def get_tombstone (r : Repo) (i : Uuid) : Option SyncTombstone :=
  r.tombstones.find? (fun x => x.id == i)

/-- well-formedness of a keyed store: ids are unique on each side (items are
keyed by primary key / map key in every backend). -/
def Repo.wf (r : Repo) : Prop :=
  (r.items.map VaultItem.id).Nodup ∧ (r.tombstones.map SyncTombstone.id).Nodup

instance (r : Repo) : Decidable r.wf := by unfold Repo.wf; infer_instance

/-- one `HashMap::insert` into a per-side `id → state` mapping. -/
def index_insert (m : Uuid → Option SyncState) (i : Uuid) (s : SyncState) :
    Uuid → Option SyncState :=
  fun j => if j = i then some s else m j

/-- the `for item in ... { index.insert(item.id, Item(item)) }` loop. -/
def insert_items (items : List VaultItem) (m : Uuid → Option SyncState) :
    Uuid → Option SyncState :=
  items.foldl (fun m item => index_insert m item.id (.Item item)) m

/-- the `for tombstone in ... { index.insert(tombstone.id, Tombstone(..)) }`
loop. -/
def insert_tombstones (ts : List SyncTombstone) (m : Uuid → Option SyncState) :
    Uuid → Option SyncState :=
  ts.foldl (fun m t => index_insert m t.id (.Tombstone t)) m

/-- the per-side `id → state` mapping built in `sync_bidirectional`: items are
inserted first, then tombstones (a later insert overwrites). -/
def build_index (items : List VaultItem) (ts : List SyncTombstone) :
    Uuid → Option SyncState :=
  insert_tombstones ts (insert_items items (fun _ => none))

/-- the union of ids met in either side's items and tombstones
(`all_ids : HashSet<Uuid>`), as a duplicate-free list. -/
def all_ids (l r : Repo) : List Uuid :=
  (l.items.map VaultItem.id ++ l.tombstones.map SyncTombstone.id ++
    r.items.map VaultItem.id ++ r.tombstones.map SyncTombstone.id).dedup

/-- the report flag accumulation for one resolution (the `conflicts`,
`conflict_ids` and `replay_blocked` updates of the loop body). -/
def report_flags (rep : SyncReport) (res : Resolution) (i : Uuid) : SyncReport :=
  ⟨rep.uploaded, rep.downloaded,
   rep.conflicts + (if res.conflict then 1 else 0),
   rep.replay_blocked + (if res.replay_blocked then 1 else 0),
   rep.conflict_ids ++ (if res.conflict then [i] else [])⟩

/-- apply a winner to one side: skip when the side already matches the winner,
else upsert the winning item and delete the tombstone (resp. delete the item
and upsert the winning tombstone); the flag records whether a write happened. -/
def apply_side (repo : Repo) (cur : Option SyncState) (w : SyncState) (i : Uuid) :
    Repo × Bool :=
  if state_matches_winner cur w then (repo, false)
  else
    match w with
    | .Item item => (delete_tombstone (upsert_item repo item) i, true)
    | .Tombstone tombstone => (upsert_tombstone (delete_item repo i) tombstone, true)

/-- the body of the `for id in all_ids` loop of `sync_bidirectional`, acting on
(local repo, remote repo, report). -/
def sync_step (lIdx rIdx : Uuid → Option SyncState)
    (s : Repo × Repo × SyncReport) (i : Uuid) : Repo × Repo × SyncReport :=
  match resolve_state (lIdx i) (rIdx i) with
  | none => s
  | some res =>
    let rep := report_flags s.2.2 res i
    let la := apply_side s.1 (lIdx i) res.winner i
    let ra := apply_side s.2.1 (rIdx i) res.winner i
    (la.1, ra.1,
      ⟨rep.uploaded + (if ra.2 then 1 else 0),
       rep.downloaded + (if la.2 then 1 else 0),
       rep.conflicts, rep.replay_blocked, rep.conflict_ids⟩)

/-- `SyncEngine::sync_bidirectional`: validation, per-side index building, and
the reconciliation loop. The result carries the two post-states together with
the `Result<SyncReport>`; on the validation error nothing is written. -/
def sync_bidirectional (l r : Repo) : Repo × Repo × Except ChacrabError SyncReport :=
  if l.items.any (fun item => !validate_encrypted_blob_only item) ||
     r.items.any (fun item => !validate_encrypted_blob_only item) then
    (l, r, .error (.Config "sync rejected invalid encrypted payload"))
  else
    let lIdx := build_index l.items l.tombstones
    let rIdx := build_index r.items r.tombstones
    let out := (all_ids l r).foldl (sync_step lIdx rIdx) (l, r, SyncReport.empty)
    (out.1, out.2.1, .ok out.2.2)

/-! Basic lemmas about state comparison and resolution. -/

theorem same_item_iff (a b : VaultItem) : same_item a b = true ↔ a = b := by
  cases a; cases b
  simp [same_item, VaultItem.mk.injEq, and_assoc]

theorem state_equivalent_iff (a b : SyncState) : state_equivalent a b = true ↔ a = b := by
  cases a <;> cases b <;> simp [state_equivalent, same_item_iff]

theorem state_matches_winner_iff (cur : Option SyncState) (w : SyncState) :
    state_matches_winner cur w = true ↔ cur = some w := by
  cases cur with
  | none => cases w <;> simp [state_matches_winner]
  | some s => cases s <;> cases w <;> simp [state_matches_winner, same_item_iff]

theorem resolve_state_refl (s : SyncState) :
    resolve_state (some s) (some s) = some ⟨s, false, false⟩ := by
  cases s <;> simp [resolve_state, state_equivalent_iff]

theorem resolve_state_eq_none (a b : Option SyncState) :
    resolve_state a b = none ↔ a = none ∧ b = none := by
  cases a with
  | none => cases b <;> simp [resolve_state]
  | some s =>
    cases b with
    | none => simp [resolve_state]
    | some t =>
      simp only [resolve_state]
      constructor
      · intro h
        exfalso
        revert h
        split
        · simp
        split
        · simp
        split
        · simp
        split
        · simp
        split
        · simp
        cases s <;> cases t <;> simp
        split <;> simp
      · intro h
        exact absurd h.1 (by simp)

theorem resolve_winner_mem (a b : Option SyncState) (res : Resolution)
    (h : resolve_state a b = some res) : a = some res.winner ∨ b = some res.winner := by
  cases a with
  | none =>
    cases b with
    | none => simp [resolve_state] at h
    | some t =>
      right
      simp only [resolve_state, Option.some.injEq] at h
      subst h; rfl
  | some s =>
    cases b with
    | none =>
      left
      simp only [resolve_state, Option.some.injEq] at h
      subst h; rfl
    | some t =>
      simp only [resolve_state] at h
      split at h
      · simp only [Option.some.injEq] at h; subst h; left; rfl
      split at h
      · simp only [Option.some.injEq] at h; subst h; left; rfl
      split at h
      · simp only [Option.some.injEq] at h; subst h; right; rfl
      split at h
      · simp only [Option.some.injEq] at h; subst h; left; rfl
      split at h
      · simp only [Option.some.injEq] at h; subst h; right; rfl
      cases s <;> cases t <;> simp only [Option.some.injEq] at h
      · rename_i li ri
        split at h <;> (simp only [Option.some.injEq] at h; subst h)
        · left; rfl
        · right; rfl
      · subst h; right; rfl
      · subst h; left; rfl
      · subst h; left; rfl

/-! Lemmas about the keyed repository operations. -/

theorem find_filter_append {α : Type} (key : α → Uuid) (l : List α) (a : α) (j : Uuid) :
    (l.filter (fun x => key x != key a) ++ [a]).find? (fun x => key x == j) =
      if j = key a then some a else l.find? (fun x => key x == j) := by
  induction l with
  | nil =>
    by_cases h : j = key a
    · simp [List.find?, h]
    · simp only [List.filter_nil, List.nil_append, if_neg h]
      rw [List.find?_cons_of_neg _ (by simp; exact fun e => h e.symm)]
  | cons b l ih =>
    by_cases hb : key b = key a
    · rw [List.filter_cons_of_neg (by simp [hb])]
      rw [ih]
      by_cases h : j = key a
      · simp [h]
      · rw [if_neg h, if_neg h]
        rw [List.find?_cons_of_neg]
        simp
        intro e
        exact h (by rw [← e, hb])
    · rw [List.filter_cons_of_pos (by simp [hb])]
      by_cases hbj : key b = j
      · rw [List.cons_append, List.find?_cons_of_pos _ (by simp [hbj]),
          if_neg (fun e => hb (hbj.trans e)), List.find?_cons_of_pos _ (by simp [hbj])]
      · rw [List.cons_append, List.find?_cons_of_neg _ (by simp [hbj]), ih]
        by_cases h : j = key a
        · simp [h]
        · rw [if_neg h, if_neg h, List.find?_cons_of_neg _ (by simp [hbj])]

theorem find_filter_ne {α : Type} (key : α → Uuid) (l : List α) (i j : Uuid) :
    (l.filter (fun x => key x != i)).find? (fun x => key x == j) =
      if j = i then none else l.find? (fun x => key x == j) := by
  induction l with
  | nil => simp
  | cons b l ih =>
    by_cases hb : key b = i
    · rw [List.filter_cons_of_neg (by simp [hb])]
      rw [ih]
      by_cases h : j = i
      · simp [h]
      · rw [if_neg h, if_neg h, List.find?_cons_of_neg _ (by simp; exact fun e => h (by rw [← e, hb]))]
    · rw [List.filter_cons_of_pos (by simp [hb])]
      by_cases hbj : key b = j
      · rw [List.find?_cons_of_pos _ (by simp [hbj]),
          if_neg (fun e => hb (hbj.trans e)), List.find?_cons_of_pos _ (by simp [hbj])]
      · rw [List.find?_cons_of_neg _ (by simp [hbj]), ih]
        by_cases h : j = i
        · simp [h]
        · rw [if_neg h, if_neg h, List.find?_cons_of_neg _ (by simp [hbj])]

theorem get_item_upsert_item (r : Repo) (it : VaultItem) (j : Uuid) :
    get_item (upsert_item r it) j = if j = it.id then some it else get_item r j :=
  find_filter_append VaultItem.id r.items it j

theorem get_item_delete_item (r : Repo) (i j : Uuid) :
    get_item (delete_item r i) j = if j = i then none else get_item r j :=
  find_filter_ne VaultItem.id r.items i j

theorem get_tombstone_upsert_tombstone (r : Repo) (t : SyncTombstone) (j : Uuid) :
    get_tombstone (upsert_tombstone r t) j = if j = t.id then some t else get_tombstone r j :=
  find_filter_append SyncTombstone.id r.tombstones t j

theorem get_tombstone_delete_tombstone (r : Repo) (i j : Uuid) :
    get_tombstone (delete_tombstone r i) j = if j = i then none else get_tombstone r j :=
  find_filter_ne SyncTombstone.id r.tombstones i j

theorem get_item_upsert_tombstone (r : Repo) (t : SyncTombstone) (j : Uuid) :
    get_item (upsert_tombstone r t) j = get_item r j := rfl

theorem get_item_delete_tombstone (r : Repo) (i j : Uuid) :
    get_item (delete_tombstone r i) j = get_item r j := rfl

theorem get_tombstone_upsert_item (r : Repo) (it : VaultItem) (j : Uuid) :
    get_tombstone (upsert_item r it) j = get_tombstone r j := rfl

theorem get_tombstone_delete_item (r : Repo) (i j : Uuid) :
    get_tombstone (delete_item r i) j = get_tombstone r j := rfl

/-! Lemmas about per-side index building. -/

/-- the state effectively stored for an id in a keyed repo: the tombstone if
one exists (it overwrites the item in the index), else the item. -/
def eff_state (r : Repo) (i : Uuid) : Option SyncState :=
  match get_tombstone r i with
  | some t => some (.Tombstone t)
  | none =>
    match get_item r i with
    | some x => some (.Item x)
    | none => none

theorem find_key_eq_none {α : Type} (key : α → Uuid) (l : List α) (j : Uuid)
    (h : j ∉ l.map key) : l.find? (fun x => key x == j) = none := by
  refine List.find?_eq_none.2 (fun x hx => ?_)
  simp only [beq_iff_eq]
  exact fun e => h (List.mem_map.2 ⟨x, hx, e⟩)

theorem fold_insert_not_found {α : Type} (key : α → Uuid) (val : α → SyncState)
    (l : List α) (m : Uuid → Option SyncState) (i : Uuid)
    (h : l.find? (fun x => key x == i) = none) :
    (l.foldl (fun m x => index_insert m (key x) (val x)) m) i = m i := by
  induction l generalizing m with
  | nil => rfl
  | cons b l ih =>
    have hb : (key b == i) = false := by
      by_contra hc
      rw [List.find?_cons_of_pos _ (by simp_all)] at h
      exact Option.noConfusion h
    rw [List.find?_cons_of_neg _ (by simp_all)] at h
    simp only [List.foldl_cons]
    rw [ih _ h]
    simp only [index_insert]
    rw [if_neg (by simp at hb; exact fun e => hb e.symm)]

theorem fold_insert_found {α : Type} (key : α → Uuid) (val : α → SyncState)
    (l : List α) (m : Uuid → Option SyncState) (i : Uuid) (a : α)
    (hnd : (l.map key).Nodup)
    (h : l.find? (fun x => key x == i) = some a) :
    (l.foldl (fun m x => index_insert m (key x) (val x)) m) i = some (val a) := by
  induction l generalizing m with
  | nil => exact Option.noConfusion h
  | cons b l ih =>
    simp only [List.map_cons, List.nodup_cons] at hnd
    by_cases hb : key b = i
    · rw [List.find?_cons_of_pos _ (by simp [hb])] at h
      have ha : a = b := (Option.some.injEq _ _ ▸ h).symm
      subst ha
      simp only [List.foldl_cons]
      have hnone : l.find? (fun x => key x == i) = none :=
        find_key_eq_none key l i (hb ▸ hnd.1)
      rw [fold_insert_not_found key val l _ i hnone]
      simp [index_insert, hb]
    · rw [List.find?_cons_of_neg _ (by simp [hb])] at h
      simp only [List.foldl_cons]
      exact ih _ hnd.2 h

theorem fold_insert_state_id {α : Type} (key : α → Uuid) (val : α → SyncState)
    (hvi : ∀ x, state_id (val x) = key x) (l : List α)
    (m : Uuid → Option SyncState)
    (hm : ∀ j s, m j = some s → state_id s = j) :
    ∀ j s, (l.foldl (fun m x => index_insert m (key x) (val x)) m) j = some s →
      state_id s = j := by
  induction l generalizing m with
  | nil => exact hm
  | cons b l ih =>
    simp only [List.foldl_cons]
    refine ih _ (fun j s hj => ?_)
    simp only [index_insert] at hj
    by_cases hb : j = key b
    · rw [if_pos hb] at hj
      cases hj
      rw [hvi b, hb]
    · rw [if_neg hb] at hj
      exact hm j s hj

theorem build_index_eq (r : Repo) (h : r.wf) (i : Uuid) :
    build_index r.items r.tombstones i = eff_state r i := by
  unfold build_index insert_tombstones insert_items eff_state get_item get_tombstone
  cases hts : r.tombstones.find? (fun x => x.id == i) with
  | some t =>
    exact fold_insert_found SyncTombstone.id (fun t => .Tombstone t) r.tombstones _ i t h.2 hts
  | none =>
    rw [fold_insert_not_found SyncTombstone.id (fun t => .Tombstone t) r.tombstones _ i hts]
    cases hit : r.items.find? (fun x => x.id == i) with
    | some x =>
      exact fold_insert_found VaultItem.id (fun x => .Item x) r.items _ i x h.1 hit
    | none =>
      exact fold_insert_not_found VaultItem.id (fun x => .Item x) r.items _ i hit

theorem build_index_state_id (items : List VaultItem) (ts : List SyncTombstone)
    (i : Uuid) (s : SyncState) (h : build_index items ts i = some s) :
    state_id s = i := by
  unfold build_index insert_tombstones insert_items at h
  refine fold_insert_state_id SyncTombstone.id (fun t => .Tombstone t) (fun _ => rfl) ts _
    (fold_insert_state_id VaultItem.id (fun x => .Item x) (fun _ => rfl) items _
      (fun _ _ hx => Option.noConfusion hx)) i s h

theorem insert_tombstones_item (ts : List SyncTombstone) (m : Uuid → Option SyncState)
    (i : Uuid) (x : VaultItem) (h : insert_tombstones ts m i = some (.Item x)) :
    m i = some (.Item x) := by
  induction ts generalizing m with
  | nil => exact h
  | cons t ts ih =>
    unfold insert_tombstones at h ih
    simp only [List.foldl_cons] at h
    have := ih _ h
    simp only [index_insert] at this
    by_cases hb : i = t.id
    · rw [if_pos hb] at this
      exact SyncState.noConfusion (Option.some.injEq _ _ ▸ this)
    · rw [if_neg hb] at this
      exact this

theorem insert_items_mem (items : List VaultItem) (m : Uuid → Option SyncState)
    (i : Uuid) (x : VaultItem) (h : insert_items items m i = some (.Item x)) :
    x ∈ items ∨ m i = some (.Item x) := by
  induction items generalizing m with
  | nil => exact .inr h
  | cons b l ih =>
    unfold insert_items at h ih
    simp only [List.foldl_cons] at h
    rcases ih _ h with hm | hm
    · exact .inl (List.mem_cons_of_mem b hm)
    · simp only [index_insert] at hm
      by_cases hb : i = b.id
      · rw [if_pos hb] at hm
        have hbx : b = x := by
          have h2 : SyncState.Item b = SyncState.Item x := Option.some.injEq _ _ ▸ hm
          cases h2; rfl
        exact .inl (hbx ▸ List.mem_cons_self b l)
      · rw [if_neg hb] at hm
        exact .inr hm

theorem build_index_item_mem (items : List VaultItem) (ts : List SyncTombstone)
    (i : Uuid) (x : VaultItem) (h : build_index items ts i = some (.Item x)) :
    x ∈ items := by
  unfold build_index at h
  rcases insert_items_mem items _ i x (insert_tombstones_item ts _ i x h) with hm | hm
  · exact hm
  · exact Option.noConfusion hm

/-! Per-id characterization of the reconciliation loop body. -/

/-- the per-side effect of one resolution on the item slot of the side. -/
def side_post_item (cur : Option SyncState) (w : SyncState) (old : Option VaultItem) :
    Option VaultItem :=
  if state_matches_winner cur w then old
  else
    match w with
    | .Item it => some it
    | .Tombstone _ => none

/-- the per-side effect of one resolution on the tombstone slot of the side. -/
def side_post_tomb (cur : Option SyncState) (w : SyncState) (old : Option SyncTombstone) :
    Option SyncTombstone :=
  if state_matches_winner cur w then old
  else
    match w with
    | .Item _ => none
    | .Tombstone t => some t

theorem apply_side_get_item (repo : Repo) (cur : Option SyncState) (w : SyncState)
    (i j : Uuid) (hw : state_id w = i) :
    get_item (apply_side repo cur w i).1 j =
      if j = i then side_post_item cur w (get_item repo j) else get_item repo j := by
  unfold apply_side side_post_item
  by_cases hm : state_matches_winner cur w
  · simp [hm]
  · simp only [hm, if_false, Bool.false_eq_true, if_neg]
    cases w with
    | Item it =>
      have hid : it.id = i := hw
      rw [show get_item (delete_tombstone (upsert_item repo it) i) j =
            get_item (upsert_item repo it) j from rfl]
      rw [get_item_upsert_item, hid]
    | Tombstone t =>
      rw [show get_item (upsert_tombstone (delete_item repo i) t) j =
            get_item (delete_item repo i) j from rfl]
      rw [get_item_delete_item]

theorem apply_side_get_tomb (repo : Repo) (cur : Option SyncState) (w : SyncState)
    (i j : Uuid) (hw : state_id w = i) :
    get_tombstone (apply_side repo cur w i).1 j =
      if j = i then side_post_tomb cur w (get_tombstone repo j) else get_tombstone repo j := by
  unfold apply_side side_post_tomb
  by_cases hm : state_matches_winner cur w
  · simp [hm]
  · simp only [hm, if_false, Bool.false_eq_true, if_neg]
    cases w with
    | Item it =>
      rw [show get_tombstone (delete_tombstone (upsert_item repo it) i) j =
            get_tombstone (delete_tombstone ⟨(upsert_item repo it).items, repo.tombstones⟩ i) j from rfl]
      rw [get_tombstone_delete_tombstone]
      rfl
    | Tombstone t =>
      have hid : t.id = i := hw
      rw [show get_tombstone (upsert_tombstone (delete_item repo i) t) j =
            get_tombstone (upsert_tombstone ⟨(delete_item repo i).items, repo.tombstones⟩ t) j from rfl]
      rw [get_tombstone_upsert_tombstone, hid]
      rfl

/-- the new local item slot for id `i` after the loop body handles `i`. -/
def post_local_item (lIdx rIdx : Uuid → Option SyncState) (i : Uuid)
    (old : Option VaultItem) : Option VaultItem :=
  match resolve_state (lIdx i) (rIdx i) with
  | none => old
  | some res => side_post_item (lIdx i) res.winner old

/-- the new local tombstone slot for id `i` after the loop body handles `i`. -/
def post_local_tomb (lIdx rIdx : Uuid → Option SyncState) (i : Uuid)
    (old : Option SyncTombstone) : Option SyncTombstone :=
  match resolve_state (lIdx i) (rIdx i) with
  | none => old
  | some res => side_post_tomb (lIdx i) res.winner old

/-- the new remote item slot for id `i` after the loop body handles `i`. -/
def post_remote_item (lIdx rIdx : Uuid → Option SyncState) (i : Uuid)
    (old : Option VaultItem) : Option VaultItem :=
  match resolve_state (lIdx i) (rIdx i) with
  | none => old
  | some res => side_post_item (rIdx i) res.winner old

/-- the new remote tombstone slot for id `i` after the loop body handles `i`. -/
def post_remote_tomb (lIdx rIdx : Uuid → Option SyncState) (i : Uuid)
    (old : Option SyncTombstone) : Option SyncTombstone :=
  match resolve_state (lIdx i) (rIdx i) with
  | none => old
  | some res => side_post_tomb (rIdx i) res.winner old

/-- indexes whose stored states carry their own key. -/
def IndexKeyed (idx : Uuid → Option SyncState) : Prop :=
  ∀ i st, idx i = some st → state_id st = i

theorem winner_state_id (lIdx rIdx : Uuid → Option SyncState) (i : Uuid)
    (Hl : IndexKeyed lIdx) (Hr : IndexKeyed rIdx) (res : Resolution)
    (h : resolve_state (lIdx i) (rIdx i) = some res) : state_id res.winner = i := by
  rcases resolve_winner_mem _ _ _ h with hm | hm
  · exact Hl i _ hm
  · exact Hr i _ hm

theorem sync_step_get_local_item (lIdx rIdx : Uuid → Option SyncState)
    (Hl : IndexKeyed lIdx) (Hr : IndexKeyed rIdx)
    (s : Repo × Repo × SyncReport) (i j : Uuid) :
    get_item (sync_step lIdx rIdx s i).1 j =
      if j = i then post_local_item lIdx rIdx i (get_item s.1 j) else get_item s.1 j := by
  unfold sync_step post_local_item
  cases hres : resolve_state (lIdx i) (rIdx i) with
  | none => simp
  | some res =>
    simp only []
    exact apply_side_get_item s.1 (lIdx i) res.winner i j
      (winner_state_id lIdx rIdx i Hl Hr res hres)

theorem sync_step_get_local_tomb (lIdx rIdx : Uuid → Option SyncState)
    (Hl : IndexKeyed lIdx) (Hr : IndexKeyed rIdx)
    (s : Repo × Repo × SyncReport) (i j : Uuid) :
    get_tombstone (sync_step lIdx rIdx s i).1 j =
      if j = i then post_local_tomb lIdx rIdx i (get_tombstone s.1 j) else get_tombstone s.1 j := by
  unfold sync_step post_local_tomb
  cases hres : resolve_state (lIdx i) (rIdx i) with
  | none => simp
  | some res =>
    simp only []
    exact apply_side_get_tomb s.1 (lIdx i) res.winner i j
      (winner_state_id lIdx rIdx i Hl Hr res hres)

theorem sync_step_get_remote_item (lIdx rIdx : Uuid → Option SyncState)
    (Hl : IndexKeyed lIdx) (Hr : IndexKeyed rIdx)
    (s : Repo × Repo × SyncReport) (i j : Uuid) :
    get_item (sync_step lIdx rIdx s i).2.1 j =
      if j = i then post_remote_item lIdx rIdx i (get_item s.2.1 j) else get_item s.2.1 j := by
  unfold sync_step post_remote_item
  cases hres : resolve_state (lIdx i) (rIdx i) with
  | none => simp
  | some res =>
    simp only []
    exact apply_side_get_item s.2.1 (rIdx i) res.winner i j
      (winner_state_id lIdx rIdx i Hl Hr res hres)

theorem sync_step_get_remote_tomb (lIdx rIdx : Uuid → Option SyncState)
    (Hl : IndexKeyed lIdx) (Hr : IndexKeyed rIdx)
    (s : Repo × Repo × SyncReport) (i j : Uuid) :
    get_tombstone (sync_step lIdx rIdx s i).2.1 j =
      if j = i then post_remote_tomb lIdx rIdx i (get_tombstone s.2.1 j) else get_tombstone s.2.1 j := by
  unfold sync_step post_remote_tomb
  cases hres : resolve_state (lIdx i) (rIdx i) with
  | none => simp
  | some res =>
    simp only []
    exact apply_side_get_tomb s.2.1 (rIdx i) res.winner i j
      (winner_state_id lIdx rIdx i Hl Hr res hres)

/-! Well-formedness preservation and write provenance. -/

theorem nodup_filter_key {α : Type} (key : α → Uuid) (p : α → Bool) (l : List α)
    (h : (l.map key).Nodup) : ((l.filter p).map key).Nodup :=
  h.sublist ((List.filter_sublist l).map key)

theorem nodup_filter_key_append {α : Type} (key : α → Uuid) (l : List α) (a : α)
    (h : (l.map key).Nodup) :
    (((l.filter (fun x => key x != key a)) ++ [a]).map key).Nodup := by
  rw [List.map_append, List.nodup_append]
  refine ⟨nodup_filter_key key _ l h, List.nodup_singleton _, ?_⟩
  intro b hb hb'
  simp only [List.map_cons, List.map_nil, List.mem_singleton] at hb'
  subst hb'
  rcases List.mem_map.1 hb with ⟨x, hx, hxa⟩
  have hpx := (List.mem_filter.1 hx).2
  simp only [bne_iff_ne, ne_eq, decide_eq_true_eq] at hpx
  exact hpx hxa

theorem wf_upsert_item (r : Repo) (it : VaultItem) (h : r.wf) : (upsert_item r it).wf :=
  ⟨nodup_filter_key_append VaultItem.id r.items it h.1, h.2⟩

theorem wf_delete_item (r : Repo) (i : Uuid) (h : r.wf) : (delete_item r i).wf :=
  ⟨nodup_filter_key VaultItem.id _ r.items h.1, h.2⟩

theorem wf_upsert_tombstone (r : Repo) (t : SyncTombstone) (h : r.wf) :
    (upsert_tombstone r t).wf :=
  ⟨h.1, nodup_filter_key_append SyncTombstone.id r.tombstones t h.2⟩

theorem wf_delete_tombstone (r : Repo) (i : Uuid) (h : r.wf) : (delete_tombstone r i).wf :=
  ⟨h.1, nodup_filter_key SyncTombstone.id _ r.tombstones h.2⟩

theorem wf_apply_side (repo : Repo) (cur : Option SyncState) (w : SyncState) (i : Uuid)
    (h : repo.wf) : (apply_side repo cur w i).1.wf := by
  unfold apply_side
  by_cases hm : state_matches_winner cur w
  · simpa [hm]
  · simp only [hm, Bool.false_eq_true, if_neg, if_false]
    cases w with
    | Item it => exact wf_delete_tombstone _ _ (wf_upsert_item _ _ h)
    | Tombstone t => exact wf_upsert_tombstone _ _ (wf_delete_item _ _ h)

theorem wf_sync_step (lIdx rIdx : Uuid → Option SyncState) (s : Repo × Repo × SyncReport)
    (i : Uuid) (h1 : s.1.wf) (h2 : s.2.1.wf) :
    (sync_step lIdx rIdx s i).1.wf ∧ (sync_step lIdx rIdx s i).2.1.wf := by
  unfold sync_step
  cases resolve_state (lIdx i) (rIdx i) with
  | none => exact ⟨h1, h2⟩
  | some res => exact ⟨wf_apply_side _ _ _ _ h1, wf_apply_side _ _ _ _ h2⟩

theorem wf_sync_fold (lIdx rIdx : Uuid → Option SyncState) (ids : List Uuid)
    (s : Repo × Repo × SyncReport) (h1 : s.1.wf) (h2 : s.2.1.wf) :
    (ids.foldl (sync_step lIdx rIdx) s).1.wf ∧ (ids.foldl (sync_step lIdx rIdx) s).2.1.wf := by
  induction ids generalizing s with
  | nil => exact ⟨h1, h2⟩
  | cons i ids ih =>
    rw [List.foldl_cons]
    have hs := wf_sync_step lIdx rIdx s i h1 h2
    exact ih _ hs.1 hs.2

/-! Membership: the loop only ever writes winners that came out of the indexes. -/

theorem mem_items_apply_side (repo : Repo) (cur : Option SyncState) (w : SyncState)
    (i : Uuid) (x : VaultItem) (h : x ∈ (apply_side repo cur w i).1.items) :
    x ∈ repo.items ∨ w = .Item x := by
  unfold apply_side at h
  by_cases hm : state_matches_winner cur w
  · rw [if_pos hm] at h
    exact .inl h
  · rw [if_neg hm] at h
    cases w with
    | Item it =>
      simp only [delete_tombstone, upsert_item, List.mem_append] at h
      rcases h with h | h
      · exact .inl (List.mem_of_mem_filter h)
      · simp only [List.mem_singleton] at h
        subst h
        exact .inr rfl
    | Tombstone t =>
      simp only [upsert_tombstone, delete_item] at h
      exact .inl (List.mem_of_mem_filter h)

theorem mem_items_sync_step_local (lIdx rIdx : Uuid → Option SyncState)
    (s : Repo × Repo × SyncReport) (i : Uuid) (x : VaultItem)
    (h : x ∈ (sync_step lIdx rIdx s i).1.items) :
    x ∈ s.1.items ∨ lIdx i = some (.Item x) ∨ rIdx i = some (.Item x) := by
  unfold sync_step at h
  cases hres : resolve_state (lIdx i) (rIdx i) with
  | none => rw [hres] at h; exact .inl h
  | some res =>
    rw [hres] at h
    rcases mem_items_apply_side s.1 (lIdx i) res.winner i x h with hm | hm
    · exact .inl hm
    · rcases resolve_winner_mem _ _ _ hres with hw | hw
      · exact .inr (.inl (hm ▸ hw))
      · exact .inr (.inr (hm ▸ hw))

theorem mem_items_sync_step_remote (lIdx rIdx : Uuid → Option SyncState)
    (s : Repo × Repo × SyncReport) (i : Uuid) (x : VaultItem)
    (h : x ∈ (sync_step lIdx rIdx s i).2.1.items) :
    x ∈ s.2.1.items ∨ lIdx i = some (.Item x) ∨ rIdx i = some (.Item x) := by
  unfold sync_step at h
  cases hres : resolve_state (lIdx i) (rIdx i) with
  | none => rw [hres] at h; exact .inl h
  | some res =>
    rw [hres] at h
    rcases mem_items_apply_side s.2.1 (rIdx i) res.winner i x h with hm | hm
    · exact .inl hm
    · rcases resolve_winner_mem _ _ _ hres with hw | hw
      · exact .inr (.inl (hm ▸ hw))
      · exact .inr (.inr (hm ▸ hw))

theorem mem_items_sync_fold (lIdx rIdx : Uuid → Option SyncState) (ids : List Uuid)
    (s : Repo × Repo × SyncReport) (x : VaultItem) :
    (x ∈ (ids.foldl (sync_step lIdx rIdx) s).1.items ∨
     x ∈ (ids.foldl (sync_step lIdx rIdx) s).2.1.items) →
    x ∈ s.1.items ∨ x ∈ s.2.1.items ∨
      ∃ i, lIdx i = some (.Item x) ∨ rIdx i = some (.Item x) := by
  induction ids generalizing s with
  | nil => rintro (h | h)
           · exact .inl h
           · exact .inr (.inl h)
  | cons i ids ih =>
    rw [List.foldl_cons]
    intro h
    rcases ih _ h with h1 | h1 | h1
    · rcases mem_items_sync_step_local lIdx rIdx s i x h1 with hm | hm
      · exact .inl hm
      · exact .inr (.inr ⟨i, hm⟩)
    · rcases mem_items_sync_step_remote lIdx rIdx s i x h1 with hm | hm
      · exact .inr (.inl hm)
      · exact .inr (.inr ⟨i, hm⟩)
    · exact .inr (.inr h1)

/-! Pointwise characterization of the whole loop. -/

theorem foldl_pointwise {σ β : Type} (step : σ → Uuid → σ) (g : σ → Uuid → β)
    (post : Uuid → β → β)
    (hstep : ∀ s i j, g (step s i) j = if j = i then post i (g s j) else g s j)
    (ids : List Uuid) (s : σ) (j : Uuid) (hnd : ids.Nodup) :
    g (ids.foldl step s) j = if j ∈ ids then post j (g s j) else g s j := by
  induction ids generalizing s with
  | nil => simp
  | cons i ids ih =>
    have hni : i ∉ ids := (List.nodup_cons.1 hnd).1
    have hnd' : ids.Nodup := (List.nodup_cons.1 hnd).2
    rw [List.foldl_cons, ih (step s i) hnd']
    by_cases hmem : j ∈ ids
    · have hji : j ≠ i := fun e => hni (e ▸ hmem)
      rw [if_pos hmem, if_pos (List.mem_cons_of_mem i hmem), hstep s i j, if_neg hji]
    · by_cases hji : j = i
      · subst hji
        rw [if_neg hmem, if_pos (List.mem_cons_self j ids), hstep s j j, if_pos rfl]
      · rw [if_neg hmem, if_neg (by simp [hji, hmem]), hstep s i j, if_neg hji]

/-! The effective per-id state both sides hold after a successful run. -/

theorem eff_state_none_iff (r : Repo) (i : Uuid) :
    eff_state r i = none ↔ get_tombstone r i = none ∧ get_item r i = none := by
  unfold eff_state
  cases get_tombstone r i <;> cases get_item r i <;> simp

theorem index_keyed_build (items : List VaultItem) (ts : List SyncTombstone) :
    IndexKeyed (build_index items ts) :=
  fun i st h => build_index_state_id items ts i st h

theorem mem_all_ids (l r : Repo) (j : Uuid) :
    j ∈ all_ids l r ↔
      (j ∈ l.items.map VaultItem.id ∨ j ∈ l.tombstones.map SyncTombstone.id ∨
       j ∈ r.items.map VaultItem.id ∨ j ∈ r.tombstones.map SyncTombstone.id) := by
  simp [all_ids, List.mem_dedup, List.mem_append, or_assoc]

theorem nodup_all_ids (l r : Repo) : (all_ids l r).Nodup :=
  List.nodup_dedup _

theorem fold_get_local_item (lIdx rIdx : Uuid → Option SyncState)
    (Hl : IndexKeyed lIdx) (Hr : IndexKeyed rIdx) (ids : List Uuid)
    (s : Repo × Repo × SyncReport) (j : Uuid) (hnd : ids.Nodup) :
    get_item ((ids.foldl (sync_step lIdx rIdx) s)).1 j =
      if j ∈ ids then post_local_item lIdx rIdx j (get_item s.1 j) else get_item s.1 j :=
  foldl_pointwise (sync_step lIdx rIdx) (fun s j => get_item s.1 j)
    (fun j old => post_local_item lIdx rIdx j old)
    (fun s i j => sync_step_get_local_item lIdx rIdx Hl Hr s i j) ids s j hnd

theorem fold_get_local_tomb (lIdx rIdx : Uuid → Option SyncState)
    (Hl : IndexKeyed lIdx) (Hr : IndexKeyed rIdx) (ids : List Uuid)
    (s : Repo × Repo × SyncReport) (j : Uuid) (hnd : ids.Nodup) :
    get_tombstone ((ids.foldl (sync_step lIdx rIdx) s)).1 j =
      if j ∈ ids then post_local_tomb lIdx rIdx j (get_tombstone s.1 j) else get_tombstone s.1 j :=
  foldl_pointwise (sync_step lIdx rIdx) (fun s j => get_tombstone s.1 j)
    (fun j old => post_local_tomb lIdx rIdx j old)
    (fun s i j => sync_step_get_local_tomb lIdx rIdx Hl Hr s i j) ids s j hnd

theorem fold_get_remote_item (lIdx rIdx : Uuid → Option SyncState)
    (Hl : IndexKeyed lIdx) (Hr : IndexKeyed rIdx) (ids : List Uuid)
    (s : Repo × Repo × SyncReport) (j : Uuid) (hnd : ids.Nodup) :
    get_item ((ids.foldl (sync_step lIdx rIdx) s)).2.1 j =
      if j ∈ ids then post_remote_item lIdx rIdx j (get_item s.2.1 j) else get_item s.2.1 j :=
  foldl_pointwise (sync_step lIdx rIdx) (fun s j => get_item s.2.1 j)
    (fun j old => post_remote_item lIdx rIdx j old)
    (fun s i j => sync_step_get_remote_item lIdx rIdx Hl Hr s i j) ids s j hnd

theorem fold_get_remote_tomb (lIdx rIdx : Uuid → Option SyncState)
    (Hl : IndexKeyed lIdx) (Hr : IndexKeyed rIdx) (ids : List Uuid)
    (s : Repo × Repo × SyncReport) (j : Uuid) (hnd : ids.Nodup) :
    get_tombstone ((ids.foldl (sync_step lIdx rIdx) s)).2.1 j =
      if j ∈ ids then post_remote_tomb lIdx rIdx j (get_tombstone s.2.1 j) else get_tombstone s.2.1 j :=
  foldl_pointwise (sync_step lIdx rIdx) (fun s j => get_tombstone s.2.1 j)
    (fun j old => post_remote_tomb lIdx rIdx j old)
    (fun s i j => sync_step_get_remote_tomb lIdx rIdx Hl Hr s i j) ids s j hnd

theorem sync_fold_eff_local (l r : Repo) (hl : l.wf) (hr : r.wf)
    (lIdx rIdx : Uuid → Option SyncState)
    (hL : lIdx = build_index l.items l.tombstones)
    (hR : rIdx = build_index r.items r.tombstones) (j : Uuid) :
    eff_state ((all_ids l r).foldl (sync_step lIdx rIdx) (l, r, SyncReport.empty)).1 j =
      (resolve_state (lIdx j) (rIdx j)).map Resolution.winner := by
  have Hl : IndexKeyed lIdx := hL ▸ index_keyed_build l.items l.tombstones
  have Hr : IndexKeyed rIdx := hR ▸ index_keyed_build r.items r.tombstones
  have hnd := nodup_all_ids l r
  have hitem := fold_get_local_item lIdx rIdx Hl Hr (all_ids l r) (l, r, SyncReport.empty) j hnd
  have htomb := fold_get_local_tomb lIdx rIdx Hl Hr (all_ids l r) (l, r, SyncReport.empty) j hnd
  by_cases hmem : j ∈ all_ids l r
  · rw [if_pos hmem] at hitem htomb
    cases hres : resolve_state (lIdx j) (rIdx j) with
    | none =>
      have hnone := (resolve_state_eq_none _ _).1 hres
      have hleff : eff_state l j = none := by
        rw [← build_index_eq l hl j, ← hL]; exact hnone.1
      have hslots := (eff_state_none_iff l j).1 hleff
      simp only [post_local_item, post_local_tomb, hres] at hitem htomb
      have hmapn : Option.map Resolution.winner (none : Option Resolution) = none := rfl
      rw [hmapn, eff_state_none_iff]
      exact ⟨htomb.trans hslots.1, hitem.trans hslots.2⟩
    | some res =>
      by_cases hm : state_matches_winner (lIdx j) res.winner
      · simp only [post_local_item, post_local_tomb, hres, side_post_item, side_post_tomb,
          hm, if_true] at hitem htomb
        have hcur : lIdx j = some res.winner := (state_matches_winner_iff _ _).1 hm
        have hle : eff_state l j = some res.winner := by
          rw [← build_index_eq l hl j, ← hL]; exact hcur
        unfold eff_state at hle ⊢
        rw [hitem, htomb]
        simpa using hle
      · cases hwin : res.winner with
        | Item it =>
          rw [hwin] at hm
          simp only [post_local_item, post_local_tomb, hres, hwin, side_post_item,
            side_post_tomb] at hitem htomb
          rw [if_neg hm] at hitem htomb
          unfold eff_state
          rw [hitem, htomb]
          simp [hwin]
        | Tombstone t =>
          rw [hwin] at hm
          simp only [post_local_item, post_local_tomb, hres, hwin, side_post_item,
            side_post_tomb] at hitem htomb
          rw [if_neg hm] at hitem htomb
          unfold eff_state
          rw [hitem, htomb]
          simp [hwin]
  · rw [if_neg hmem] at hitem htomb
    rw [mem_all_ids] at hmem
    push_neg at hmem
    have hli : get_item l j = none := find_key_eq_none VaultItem.id l.items j hmem.1
    have hlt : get_tombstone l j = none := find_key_eq_none SyncTombstone.id l.tombstones j hmem.2.1
    have hri : get_item r j = none := find_key_eq_none VaultItem.id r.items j hmem.2.2.1
    have hrt : get_tombstone r j = none := find_key_eq_none SyncTombstone.id r.tombstones j hmem.2.2.2
    have hLn : lIdx j = none := by
      rw [hL, build_index_eq l hl j, eff_state_none_iff]; exact ⟨hlt, hli⟩
    have hRn : rIdx j = none := by
      rw [hR, build_index_eq r hr j, eff_state_none_iff]; exact ⟨hrt, hri⟩
    have hmapn : Option.map Resolution.winner (resolve_state none none) = none := rfl
    rw [hLn, hRn, hmapn, eff_state_none_iff]
    exact ⟨htomb.trans hlt, hitem.trans hli⟩

theorem sync_fold_eff_remote (l r : Repo) (hl : l.wf) (hr : r.wf)
    (lIdx rIdx : Uuid → Option SyncState)
    (hL : lIdx = build_index l.items l.tombstones)
    (hR : rIdx = build_index r.items r.tombstones) (j : Uuid) :
    eff_state ((all_ids l r).foldl (sync_step lIdx rIdx) (l, r, SyncReport.empty)).2.1 j =
      (resolve_state (lIdx j) (rIdx j)).map Resolution.winner := by
  have Hl : IndexKeyed lIdx := hL ▸ index_keyed_build l.items l.tombstones
  have Hr : IndexKeyed rIdx := hR ▸ index_keyed_build r.items r.tombstones
  have hnd := nodup_all_ids l r
  have hitem := fold_get_remote_item lIdx rIdx Hl Hr (all_ids l r) (l, r, SyncReport.empty) j hnd
  have htomb := fold_get_remote_tomb lIdx rIdx Hl Hr (all_ids l r) (l, r, SyncReport.empty) j hnd
  by_cases hmem : j ∈ all_ids l r
  · rw [if_pos hmem] at hitem htomb
    cases hres : resolve_state (lIdx j) (rIdx j) with
    | none =>
      have hnone := (resolve_state_eq_none _ _).1 hres
      have hreff : eff_state r j = none := by
        rw [← build_index_eq r hr j, ← hR]; exact hnone.2
      have hslots := (eff_state_none_iff r j).1 hreff
      simp only [post_remote_item, post_remote_tomb, hres] at hitem htomb
      have hmapn : Option.map Resolution.winner (none : Option Resolution) = none := rfl
      rw [hmapn, eff_state_none_iff]
      exact ⟨htomb.trans hslots.1, hitem.trans hslots.2⟩
    | some res =>
      by_cases hm : state_matches_winner (rIdx j) res.winner
      · simp only [post_remote_item, post_remote_tomb, hres, side_post_item, side_post_tomb,
          hm, if_true] at hitem htomb
        have hcur : rIdx j = some res.winner := (state_matches_winner_iff _ _).1 hm
        have hre : eff_state r j = some res.winner := by
          rw [← build_index_eq r hr j, ← hR]; exact hcur
        unfold eff_state at hre ⊢
        rw [hitem, htomb]
        simpa using hre
      · cases hwin : res.winner with
        | Item it =>
          rw [hwin] at hm
          simp only [post_remote_item, post_remote_tomb, hres, hwin, side_post_item,
            side_post_tomb] at hitem htomb
          rw [if_neg hm] at hitem htomb
          unfold eff_state
          rw [hitem, htomb]
          simp [hwin]
        | Tombstone t =>
          rw [hwin] at hm
          simp only [post_remote_item, post_remote_tomb, hres, hwin, side_post_item,
            side_post_tomb] at hitem htomb
          rw [if_neg hm] at hitem htomb
          unfold eff_state
          rw [hitem, htomb]
          simp [hwin]
  · rw [if_neg hmem] at hitem htomb
    rw [mem_all_ids] at hmem
    push_neg at hmem
    have hli : get_item l j = none := find_key_eq_none VaultItem.id l.items j hmem.1
    have hlt : get_tombstone l j = none := find_key_eq_none SyncTombstone.id l.tombstones j hmem.2.1
    have hri : get_item r j = none := find_key_eq_none VaultItem.id r.items j hmem.2.2.1
    have hrt : get_tombstone r j = none := find_key_eq_none SyncTombstone.id r.tombstones j hmem.2.2.2
    have hLn : lIdx j = none := by
      rw [hL, build_index_eq l hl j, eff_state_none_iff]; exact ⟨hlt, hli⟩
    have hRn : rIdx j = none := by
      rw [hR, build_index_eq r hr j, eff_state_none_iff]; exact ⟨hrt, hri⟩
    have hmapn : Option.map Resolution.winner (resolve_state none none) = none := rfl
    rw [hLn, hRn, hmapn, eff_state_none_iff]
    exact ⟨htomb.trans hrt, hitem.trans hri⟩

/-! A second run over unchanged inputs performs no writes. -/

theorem sync_step_skip (lIdx rIdx : Uuid → Option SyncState) (i : Uuid)
    (h : lIdx i = rIdx i) (s : Repo × Repo × SyncReport) :
    sync_step lIdx rIdx s i = s := by
  unfold sync_step
  cases hc : lIdx i with
  | none =>
    rw [← h, hc]
    rfl
  | some w =>
    rw [← h, hc, resolve_state_refl]
    have hm : state_matches_winner (some w) w = true := (state_matches_winner_iff _ _).2 rfl
    simp [report_flags, apply_side, hm]

theorem foldl_id_of_skip {σ : Type} (f : σ → Uuid → σ) (ids : List Uuid) (s : σ)
    (h : ∀ i ∈ ids, ∀ s, f s i = s) : ids.foldl f s = s := by
  induction ids generalizing s with
  | nil => rfl
  | cons i ids ih =>
    rw [List.foldl_cons, h i (List.mem_cons_self i ids) s]
    exact ih s (fun i hi s => h i (List.mem_cons_of_mem _ hi) s)

theorem sync_second_run (l r : Repo) (hl : l.wf) (hr : r.wf)
    (heff : ∀ j, eff_state l j = eff_state r j)
    (hvl : l.items.any (fun item => !validate_encrypted_blob_only item) = false)
    (hvr : r.items.any (fun item => !validate_encrypted_blob_only item) = false) :
    sync_bidirectional l r = (l, r, .ok SyncReport.empty) := by
  unfold sync_bidirectional
  rw [hvl, hvr]
  simp only [Bool.or_self, Bool.false_eq_true, if_false, if_neg]
  rw [foldl_id_of_skip]
  intro i _ s
  refine sync_step_skip _ _ i ?_ s
  rw [build_index_eq l hl i, build_index_eq r hr i]
  exact heff i

theorem sync_idempotent_aux (l r l2 r2 : Repo) (rep : SyncReport)
    (hl : l.wf) (hr : r.wf)
    (h : sync_bidirectional l r = (l2, r2, .ok rep)) :
    sync_bidirectional l2 r2 = (l2, r2, .ok SyncReport.empty) := by
  unfold sync_bidirectional at h
  by_cases hval : (l.items.any (fun item => !validate_encrypted_blob_only item) ||
      r.items.any (fun item => !validate_encrypted_blob_only item)) = true
  · rw [if_pos hval] at h
    exact absurd (congrArg (fun x => x.2.2) h) (by simp)
  · rw [if_neg hval] at h
    simp only [Bool.or_eq_true, not_or, Bool.not_eq_true] at hval
    have hl2 : ((all_ids l r).foldl
        (sync_step (build_index l.items l.tombstones) (build_index r.items r.tombstones))
        (l, r, SyncReport.empty)).1 = l2 := congrArg (fun x => x.1) h
    have hr2 : ((all_ids l r).foldl
        (sync_step (build_index l.items l.tombstones) (build_index r.items r.tombstones))
        (l, r, SyncReport.empty)).2.1 = r2 := congrArg (fun x => x.2.1) h
    have hwf := wf_sync_fold (build_index l.items l.tombstones)
      (build_index r.items r.tombstones) (all_ids l r) (l, r, SyncReport.empty) hl hr
    have hvl : ∀ x ∈ l.items, validate_encrypted_blob_only x = true := by
      intro x hx
      have := List.any_eq_false.1 hval.1 x hx
      simpa using this
    have hvr : ∀ x ∈ r.items, validate_encrypted_blob_only x = true := by
      intro x hx
      have := List.any_eq_false.1 hval.2 x hx
      simpa using this
    have hmemval : ∀ x : VaultItem,
        (x ∈ l2.items ∨ x ∈ r2.items) → validate_encrypted_blob_only x = true := by
      intro x hx
      have hx2 : x ∈ ((all_ids l r).foldl
          (sync_step (build_index l.items l.tombstones) (build_index r.items r.tombstones))
          (l, r, SyncReport.empty)).1.items ∨
          x ∈ ((all_ids l r).foldl
          (sync_step (build_index l.items l.tombstones) (build_index r.items r.tombstones))
          (l, r, SyncReport.empty)).2.1.items := by
        rcases hx with hx | hx
        · exact .inl (hl2 ▸ hx)
        · exact .inr (hr2 ▸ hx)
      rcases mem_items_sync_fold _ _ _ _ _ hx2 with hm | hm | ⟨i, hm | hm⟩
      · exact hvl x hm
      · exact hvr x hm
      · exact hvl x (build_index_item_mem _ _ _ _ hm)
      · exact hvr x (build_index_item_mem _ _ _ _ hm)
    refine sync_second_run l2 r2 (hl2 ▸ hwf.1) (hr2 ▸ hwf.2) ?_ ?_ ?_
    · intro j
      have h1 := sync_fold_eff_local l r hl hr _ _ rfl rfl j
      have h2 := sync_fold_eff_remote l r hl hr _ _ rfl rfl j
      rw [hl2] at h1
      rw [hr2] at h2
      exact h1.trans h2.symm
    · refine List.any_eq_false.2 (fun x hx => ?_)
      simp [hmemval x (.inl hx)]
    · refine List.any_eq_false.2 (fun x hx => ?_)
      simp [hmemval x (.inr hx)]

/-! Vault service delete, auth login, and the backup codec. -/

/-- `u64::MAX`. -/
def u64Max : Nat := 2 ^ 64 - 1

/-- `u64::saturating_add(1)` on versions modelled as `Nat`. -/
def sat_add1 (v : Nat) : Nat := min (v + 1) u64Max

/-- `VaultService::persist_item_update` from `core/vault.rs`: install the
fresh encryption output, bump `sync_version` (saturating), set
`updated_at = now`. The AEAD draws a random nonce, so the encryption result is
passed in as `ciphertext`/`nonce`. -/
def persist_item_update (item : VaultItem) (ciphertext nonce : Bytes) (now : Time) :
    VaultItem :=
  ⟨item.id, item.itemType, item.title, item.username, item.url,
   ciphertext, nonce, sat_add1 item.sync_version, item.created_at, now⟩

/-- `SqliteRepository::delete_item` from `storage/sqlite.rs`:
`DELETE FROM vault_items WHERE id = ?1`, failing with `NotFound` when no row
was affected (postgres and mongo behave the same). -/
def sqlite_delete_item (r : Repo) (i : Uuid) : Except ChacrabError Repo :=
  if r.items.any (fun x => x.id == i) then .ok (delete_item r i)
  else .error .NotFound

/-- `VaultService::delete` from `core/vault.rs`: the next sync version comes
from the existing item if `get_item` succeeds, else from the existing
tombstone, else 1; then `delete_item` (the fallible repository operation) and
`upsert_tombstone`. -/
def vault_delete (r : Repo) (i : Uuid) (now : Time) : Except ChacrabError Repo :=
  let next_sync_version :=
    match get_item r i with
    | some item => sat_add1 item.sync_version
    | none =>
      match r.tombstones.find? (fun entry => entry.id == i) with
      | some entry => sat_add1 entry.sync_version
      | none => 1
  match sqlite_delete_item r i with
  | .error e => .error e
  | .ok r1 => .ok (upsert_tombstone r1 ⟨i, now, next_sync_version⟩)

/-- a derived 32-byte symmetric key. -/
abbrev Key := Bytes

/-- `AuthRecord` from `core/models.rs`. -/
structure AuthRecord where
  salt : String
  verifier : String
  argon2_m_cost : Nat
  argon2_t_cost : Nat
  argon2_p_cost : Nat
deriving DecidableEq, Repr

/-- Modelled from the spec: `crypto::verify_password_with_params` is called by
`login_with_store` in `auth/login.rs` but is absent from the sources under
`src/` (crypto.rs defines only the fixed-parameter `verify_password`). Per the
spec it re-derives the key with the given Argon2 parameters and verifies it
against the stored verifier, failing with `InvalidCredentials` on any
derivation or verification error. The Argon2 KDF and the PHC verifier check
are foreign crypto, taken as function arguments. -/
def verify_password_with_params
    (derive_key_with_params : String → String → Nat → Nat → Nat → Except ChacrabError Key)
    (verifier_matches : Key → String → Bool)
    (master_password salt verifier : String) (m t p : Nat) : Except ChacrabError Key :=
  match derive_key_with_params master_password salt m t p with
  | .error _ => .error .InvalidCredentials
  | .ok derived =>
    if verifier_matches derived verifier then .ok derived
    else .error .InvalidCredentials

/-- `login_with_store` from `auth/login.rs`: load the auth record (absent →
`Config` error), verify with the *stored* Argon2 parameters, store the derived
key in the session-key store. The `Ok` value is the session store content
after login. -/
def login_with_store
    (derive_key_with_params : String → String → Nat → Nat → Nat → Except ChacrabError Key)
    (verifier_matches : Key → String → Bool)
    (auth_record : Option AuthRecord) (master_password : String) :
    Except ChacrabError (Option Key) :=
  match auth_record with
  | none => .error (.Config "vault not initialized; run init")
  | some auth =>
    match verify_password_with_params derive_key_with_params verifier_matches
        master_password auth.salt auth.verifier
        auth.argon2_m_cost auth.argon2_t_cost auth.argon2_p_cost with
    | .error e => .error e
    | .ok derived => .ok (some derived)

/-- `CipherBlob` from `core/crypto.rs`. -/
structure CipherBlob where
  ciphertext : Bytes
  nonce : Bytes
deriving DecidableEq, Repr

/-- `BACKUP_FORMAT_VERSION` from `core/backup.rs`. -/
def BACKUP_FORMAT_VERSION : Nat := 1

/-- `NONCE_SIZE` from `core/crypto.rs`. -/
def NONCE_SIZE : Nat := 12

/-- `BackupPayload` from `core/backup.rs`. -/
structure BackupPayload where
  schema_version : Nat
  exported_at : String
  items : List VaultItem
deriving DecidableEq, Repr

/-- `EncryptedBackupFile` from `core/backup.rs`. -/
structure EncryptedBackupFile where
  format_version : Nat
  nonce_b64 : String
  ciphertext_b64 : String
  checksum_hex : String
deriving DecidableEq, Repr

/-- `export_encrypted` from `core/backup.rs`: serialize the payload, encrypt,
base64-encode nonce and ciphertext, checksum = hex SHA-256 of
`nonce ∥ ciphertext`. Serde, the AEAD, base64 and the hash are foreign and
passed as functions (`checksum` stands for `hex ∘ sha256` of the pair). -/
def export_encrypted
    (serialize : BackupPayload → Bytes)
    (encrypt : Key → Bytes → CipherBlob)
    (b64_encode : Bytes → String)
    (checksum : Bytes → Bytes → String)
    (items : List VaultItem) (key : Key) (exported_at : String) : EncryptedBackupFile :=
  let payload : BackupPayload := ⟨BACKUP_FORMAT_VERSION, exported_at, items⟩
  let encrypted := encrypt key (serialize payload)
  ⟨BACKUP_FORMAT_VERSION, b64_encode encrypted.nonce, b64_encode encrypted.ciphertext,
   checksum encrypted.nonce encrypted.ciphertext⟩

/-- `import_encrypted` from `core/backup.rs`: version check (`Config` error),
base64 decode and nonce length check (`Serialization`), checksum comparison
(`Crypto`), decrypt (`Crypto`), deserialize (`Serialization`). -/
def import_encrypted
    (b64_decode : String → Option Bytes)
    (checksum : Bytes → Bytes → String)
    (decrypt : Key → Bytes → Bytes → Option Bytes)
    (deserialize : Bytes → Option BackupPayload)
    (backup_file : EncryptedBackupFile) (key : Key) : Except ChacrabError BackupPayload :=
  if backup_file.format_version != BACKUP_FORMAT_VERSION then
    .error (.Config "unsupported backup format version")
  else
    match b64_decode backup_file.nonce_b64 with
    | none => .error .Serialization
    | some nonce_bytes =>
      if nonce_bytes.length != NONCE_SIZE then .error .Serialization
      else
        match b64_decode backup_file.ciphertext_b64 with
        | none => .error .Serialization
        | some ciphertext =>
          if checksum nonce_bytes ciphertext != backup_file.checksum_hex then .error .Crypto
          else
            match decrypt key nonce_bytes ciphertext with
            | none => .error .Crypto
            | some plaintext =>
              match deserialize plaintext with
              | none => .error .Serialization
              | some payload => .ok payload

/-- totality of the lexicographic comparison: when `a` is not `≥ b`, `b ≥ a`. -/
theorem bytes_ge_total (a b : Bytes) (h : bytes_ge a b = false) : bytes_ge b a = true := by
  induction a generalizing b with
  | nil =>
    cases b with
    | nil => simp [bytes_ge] at h
    | cons y ys => simp [bytes_ge]
  | cons x xs ih =>
    cases b with
    | nil => simp [bytes_ge] at h
    | cons y ys =>
      simp only [bytes_ge] at h ⊢
      by_cases h1 : y < x
      · rw [if_pos h1] at h
        exact absurd h (by simp)
      · rw [if_neg h1] at h
        by_cases h2 : x < y
        · rw [if_pos h2]
        · rw [if_neg h2] at h
          rw [if_neg h2, if_neg h1]
          exact ih ys h

/-! Claims about conflict resolution and the loop body. -/

theorem mem_tombs_apply_side (repo : Repo) (cur : Option SyncState) (w : SyncState)
    (i : Uuid) (t : SyncTombstone) (h : t ∈ (apply_side repo cur w i).1.tombstones) :
    t ∈ repo.tombstones ∨ w = .Tombstone t := by
  unfold apply_side at h
  by_cases hm : state_matches_winner cur w
  · rw [if_pos hm] at h
    exact .inl h
  · rw [if_neg hm] at h
    cases w with
    | Item it =>
      simp only [delete_tombstone, upsert_item] at h
      exact .inl (List.mem_of_mem_filter h)
    | Tombstone tw =>
      simp only [upsert_tombstone, delete_item, List.mem_append] at h
      rcases h with h | h
      · exact .inl (List.mem_of_mem_filter h)
      · simp only [List.mem_singleton] at h
        subst h
        exact .inr rfl

/-- C1: for an id present on both sides with non-equivalent states, a remote
`sync_version` strictly below the local one makes the local state win with
both `conflict` and `replay_blocked` set, and the loop body leaves the local
replica untouched for that id — a replica holding `sync_version` N never
accepts a remote write at a version below N; conversely a local
`sync_version` strictly below the remote one makes the remote state win with
`conflict` set but `replay_blocked` clear. -/
theorem claim_C1_replay_protection (lIdx rIdx : Uuid → Option SyncState) (i : Uuid)
    (ls rs : SyncState) (s : Repo × Repo × SyncReport)
    (hlx : lIdx i = some ls) (hrx : rIdx i = some rs)
    (hne : state_equivalent ls rs = false) :
    (state_version rs < state_version ls →
      resolve_state (lIdx i) (rIdx i) = some ⟨ls, true, true⟩ ∧
      (sync_step lIdx rIdx s i).1 = s.1) ∧
    (state_version ls < state_version rs →
      resolve_state (lIdx i) (rIdx i) = some ⟨rs, true, false⟩) := by
  constructor
  · intro hv
    have hres : resolve_state (lIdx i) (rIdx i) = some ⟨ls, true, true⟩ := by
      rw [hlx, hrx]
      simp only [resolve_state]
      rw [if_neg (by simp [hne]), if_pos hv]
    refine ⟨hres, ?_⟩
    unfold sync_step
    rw [hres]
    have hm : state_matches_winner (lIdx i) ls = true := by
      rw [hlx]
      exact (state_matches_winner_iff _ _).2 rfl
    simp [apply_side, hm]
  · intro hv
    rw [hlx, hrx]
    simp only [resolve_state]
    rw [if_neg (by simp [hne]), if_neg (by omega), if_pos hv]

/-- C5: for non-equivalent states at equal `sync_version`s the later
timestamp wins with `conflict` flagged; at equal timestamps a Tombstone beats
an Item, between two Items the lexicographically greater `encrypted_data`
wins, and between two Tombstones the local one wins — always flagged as a
conflict. -/
theorem claim_C5_equal_version (ls rs : SyncState)
    (hne : state_equivalent ls rs = false)
    (hv : state_version ls = state_version rs) :
    (state_timestamp rs < state_timestamp ls →
       resolve_state (some ls) (some rs) = some ⟨ls, true, false⟩) ∧
    (state_timestamp ls < state_timestamp rs →
       resolve_state (some ls) (some rs) = some ⟨rs, true, false⟩) ∧
    (state_timestamp ls = state_timestamp rs →
       (∀ t v, ls = .Tombstone t → rs = .Item v →
          resolve_state (some ls) (some rs) = some ⟨ls, true, false⟩) ∧
       (∀ v t, ls = .Item v → rs = .Tombstone t →
          resolve_state (some ls) (some rs) = some ⟨rs, true, false⟩) ∧
       (∀ li ri, ls = .Item li → rs = .Item ri →
          (bytes_ge ri.encrypted_data li.encrypted_data = false →
             resolve_state (some ls) (some rs) = some ⟨ls, true, false⟩) ∧
          (bytes_ge li.encrypted_data ri.encrypted_data = false →
             resolve_state (some ls) (some rs) = some ⟨rs, true, false⟩)) ∧
       (∀ tl tr, ls = .Tombstone tl → rs = .Tombstone tr →
          resolve_state (some ls) (some rs) = some ⟨ls, true, false⟩)) := by
  have he : ¬ (state_equivalent ls rs = true) := by simp [hne]
  have h2 : ¬ (state_version rs < state_version ls) := by omega
  have h3 : ¬ (state_version ls < state_version rs) := by omega
  refine ⟨?_, ?_, ?_⟩
  · intro ht
    simp only [resolve_state]
    rw [if_neg he, if_neg h2, if_neg h3, if_pos ht]
  · intro ht
    have h4 : ¬ (state_timestamp rs < state_timestamp ls) := lt_asymm ht
    simp only [resolve_state]
    rw [if_neg he, if_neg h2, if_neg h3, if_neg h4, if_pos ht]
  · intro ht
    have h4 : ¬ (state_timestamp rs < state_timestamp ls) := by
      rw [ht]; exact lt_irrefl _
    have h5 : ¬ (state_timestamp ls < state_timestamp rs) := by
      rw [ht]; exact lt_irrefl _
    refine ⟨?_, ?_, ?_, ?_⟩
    · intro t v hl hr
      subst hl; subst hr
      simp only [resolve_state]
      rw [if_neg he, if_neg h2, if_neg h3, if_neg h4, if_neg h5]
    · intro v t hl hr
      subst hl; subst hr
      simp only [resolve_state]
      rw [if_neg he, if_neg h2, if_neg h3, if_neg h4, if_neg h5]
    · intro li ri hl hr
      subst hl; subst hr
      constructor
      · intro hge
        have hge2 : bytes_ge li.encrypted_data ri.encrypted_data = true :=
          bytes_ge_total _ _ hge
        simp only [resolve_state]
        rw [if_neg he, if_neg h2, if_neg h3, if_neg h4, if_neg h5]
        simp [hge2]
      · intro hge
        simp only [resolve_state]
        rw [if_neg he, if_neg h2, if_neg h3, if_neg h4, if_neg h5]
        simp [hge]
    · intro tl tr hl hr
      subst hl; subst hr
      simp only [resolve_state]
      rw [if_neg he, if_neg h2, if_neg h3, if_neg h4, if_neg h5]

/-- C6: when any item on either side has empty `encrypted_data` or a nonce
that is not 12 bytes, `sync_bidirectional` aborts with
`Config("sync rejected invalid encrypted payload")` and neither repository is
changed. -/
theorem claim_C6_validation (l r : Repo)
    (h : l.items.any (fun item => !validate_encrypted_blob_only item) = true ∨
         r.items.any (fun item => !validate_encrypted_blob_only item) = true) :
    sync_bidirectional l r =
      (l, r, .error (.Config "sync rejected invalid encrypted payload")) := by
  unfold sync_bidirectional
  have hc : (l.items.any (fun item => !validate_encrypted_blob_only item) ||
      r.items.any (fun item => !validate_encrypted_blob_only item)) = true := by
    rcases h with h | h <;> simp [h]
  rw [if_pos hc]

/-- C10: sync never fabricates state: the winner of every resolution is,
verbatim, one of the two input states, and the loop body writes nothing but
that winner — every item or tombstone present on either side after the body
runs was either already stored there or is the winner itself. -/
theorem claim_C10_no_fabrication (lIdx rIdx : Uuid → Option SyncState)
    (s : Repo × Repo × SyncReport) (i : Uuid) (res : Resolution)
    (h : resolve_state (lIdx i) (rIdx i) = some res) :
    (lIdx i = some res.winner ∨ rIdx i = some res.winner) ∧
    (∀ x, x ∈ (sync_step lIdx rIdx s i).1.items →
        x ∈ s.1.items ∨ res.winner = .Item x) ∧
    (∀ x, x ∈ (sync_step lIdx rIdx s i).2.1.items →
        x ∈ s.2.1.items ∨ res.winner = .Item x) ∧
    (∀ t, t ∈ (sync_step lIdx rIdx s i).1.tombstones →
        t ∈ s.1.tombstones ∨ res.winner = .Tombstone t) ∧
    (∀ t, t ∈ (sync_step lIdx rIdx s i).2.1.tombstones →
        t ∈ s.2.1.tombstones ∨ res.winner = .Tombstone t) := by
  refine ⟨resolve_winner_mem _ _ _ h, ?_, ?_, ?_, ?_⟩ <;>
    (intro x hx; unfold sync_step at hx; rw [h] at hx)
  · exact mem_items_apply_side _ _ _ _ _ hx
  · exact mem_items_apply_side _ _ _ _ _ hx
  · exact mem_tombs_apply_side _ _ _ _ _ hx
  · exact mem_tombs_apply_side _ _ _ _ _ hx

/-! Claims about idempotence, deletion, login and version bumps. -/

/-- C2: bidirectional sync is idempotent: when a run over two keyed
repositories succeeds, a second run over the resulting repositories reports
`uploaded = downloaded = conflicts = replay_blocked = 0` and changes neither
repository. -/
theorem claim_C2_sync_idempotent (l r l2 r2 : Repo) (rep : SyncReport)
    (hl : l.wf) (hr : r.wf)
    (h : sync_bidirectional l r = (l2, r2, .ok rep)) :
    sync_bidirectional l2 r2 = (l2, r2, .ok SyncReport.empty) :=
  sync_idempotent_aux l r l2 r2 rep hl hr h

/-- an item selected by higher sync version on one side, for the C3
counterexample: `sync_version = 5`. -/
def c3_item : VaultItem :=
  ⟨1, .password, "a", none, none, [1], [0, 0, 0, 0, 0, 0, 0, 0, 0, 0, 0, 0], 5, 0, 0⟩

/-- a lower-versioned tombstone for the same id: `sync_version = 1`. -/
def c3_tombstone : SyncTombstone := ⟨1, 0, 1⟩

/-- C3 counterexample: a side holding an item at `sync_version = 5` and a
tombstone at `sync_version = 1` for the same id selects the tombstone, not
the higher-version item: tombstones are inserted into the per-side index
after items and overwrite them unconditionally. -/
theorem claim_C3_counterexample :
    build_index [c3_item] [c3_tombstone] 1 = some (.Tombstone c3_tombstone) ∧
    c3_tombstone.sync_version < c3_item.sync_version ∧
    build_index [c3_item] [c3_tombstone] 1 ≠ some (.Item c3_item) :=
  ⟨rfl, by decide, by decide⟩

/-- C3 amended: when building the per-side id-to-state mapping, a side that
holds a tombstone for an id (ids unique per side) always selects the
tombstone as that side's state, regardless of the sync_versions of the
tombstone and of any coexisting item. -/
theorem claim_C3_tombstone_overwrites (items : List VaultItem)
    (ts : List SyncTombstone) (i : Uuid) (t : SyncTombstone)
    (hnd : (ts.map SyncTombstone.id).Nodup)
    (h : ts.find? (fun x => x.id == i) = some t) :
    build_index items ts i = some (.Tombstone t) := by
  unfold build_index insert_tombstones
  exact fold_insert_found SyncTombstone.id (fun t => .Tombstone t) ts _ i t hnd h

/-- C3 witness instance. -/
theorem claim_C3_witness :
    build_index [c3_item] [c3_tombstone] 1 = some (.Tombstone c3_tombstone) :=
  claim_C3_tombstone_overwrites [c3_item] [c3_tombstone] 1 c3_tombstone
    (by decide) (by rfl)

/-- an item at `sync_version = 1` coexisting with a tombstone, for C4. -/
def c4_item : VaultItem :=
  ⟨1, .password, "a", none, none, [1], [0, 0, 0, 0, 0, 0, 0, 0, 0, 0, 0, 0], 1, 0, 0⟩

/-- a tombstone at `sync_version = 5` for the same id, for C4. -/
def c4_tombstone : SyncTombstone := ⟨1, 0, 5⟩

/-- the repository holding both, for C4. -/
def c4_repo : Repo := ⟨[c4_item], [c4_tombstone]⟩

/-- C4 counterexample: with an item at `sync_version = 1` and a tombstone at
`sync_version = 5` for the same id, `delete` writes a tombstone at
`sync_version = 2` (the item's version + 1), not
`max(item, tombstone, 0) + 1 = 6`; and deleting an id with no item and no
tombstone fails with `NotFound` and writes no tombstone at all. -/
theorem claim_C4_counterexample :
    vault_delete c4_repo 1 7 = .ok ⟨[], [⟨1, 7, 2⟩]⟩ ∧
    (2 : Nat) ≠ max (max c4_item.sync_version c4_tombstone.sync_version) 0 + 1 ∧
    vault_delete ⟨[], []⟩ 1 7 = .error .NotFound :=
  ⟨rfl, by decide, rfl⟩

/-- C4 amended: `delete(id)` takes the next sync_version from the existing
item alone when one exists (`item.sync_version + 1`, saturating — a
coexisting tombstone's sync_version is ignored), else from the existing
tombstone, else 1; it then deletes the item and upserts the tombstone. But
when no item exists the repository's `delete_item` fails with `NotFound` and
`delete` propagates the error without writing any tombstone. -/
theorem claim_C4_delete (r : Repo) (i : Uuid) (now : Time) :
    (∀ item, get_item r i = some item →
       vault_delete r i now =
         .ok (upsert_tombstone (delete_item r i) ⟨i, now, sat_add1 item.sync_version⟩)) ∧
    (get_item r i = none → vault_delete r i now = .error .NotFound) := by
  constructor
  · intro item hitem
    have hfind : r.items.find? (fun x => x.id == i) = some item := hitem
    have hmem : item ∈ r.items := List.mem_of_find?_eq_some hfind
    have hpred := List.find?_some hfind
    have hany : r.items.any (fun x => x.id == i) = true :=
      List.any_eq_true.2 ⟨item, hmem, hpred⟩
    unfold vault_delete sqlite_delete_item
    rw [hitem, if_pos hany]
  · intro hnone
    have hany : r.items.any (fun x => x.id == i) = false := by
      refine List.any_eq_false.2 (fun x hx => ?_)
      have := List.find?_eq_none.1 hnone x hx
      simpa using this
    unfold vault_delete sqlite_delete_item
    rw [hnone, if_neg (by simp [hany])]

/-- C4 witness instance: both branches at concrete inputs. -/
theorem claim_C4_witness :
    vault_delete c4_repo 1 7 =
      .ok (upsert_tombstone (delete_item c4_repo 1) ⟨1, 7, sat_add1 c4_item.sync_version⟩) ∧
    vault_delete (⟨[], []⟩ : Repo) 1 7 = .error .NotFound :=
  ⟨(claim_C4_delete c4_repo 1 7).1 c4_item rfl, (claim_C4_delete ⟨[], []⟩ 1 7).2 rfl⟩

/-- C7: login re-derives the key with the Argon2 parameters stored in the
`AuthRecord` — not the compile-time defaults — verifies it against the stored
verifier, and on success the session-key store holds exactly the key derived
with the stored parameters. -/
theorem claim_C7_login_stored_params
    (derive_key_with_params : String → String → Nat → Nat → Nat → Except ChacrabError Key)
    (verifier_matches : Key → String → Bool)
    (auth : AuthRecord) (master_password : String) (key : Key)
    (hd : derive_key_with_params master_password auth.salt
            auth.argon2_m_cost auth.argon2_t_cost auth.argon2_p_cost = .ok key)
    (hv : verifier_matches key auth.verifier = true) :
    login_with_store derive_key_with_params verifier_matches (some auth) master_password =
      .ok (some key) := by
  have hver : verify_password_with_params derive_key_with_params verifier_matches
      master_password auth.salt auth.verifier auth.argon2_m_cost auth.argon2_t_cost
      auth.argon2_p_cost = .ok key := by
    unfold verify_password_with_params
    rw [hd]
    simp [hv]
  simp only [login_with_store, hver]

/-- the KDF used in the C7 witness: it only succeeds at the stored
non-default parameters `m = 32768, t = 4, p = 1`. -/
def c7_kdf : String → String → Nat → Nat → Nat → Except ChacrabError Key :=
  fun _ _ m t p =>
    if m = 32768 ∧ t = 4 ∧ p = 1 then .ok [7] else .error .Crypto

/-- the verifier check used in the C7 witness. -/
def c7_check : Key → String → Bool :=
  fun k v => k == [7] && v == "ver"

/-- the stored auth record with non-default Argon2 parameters, for C7. -/
def c7_auth : AuthRecord := ⟨"salt", "ver", 32768, 4, 1⟩

/-- C7 witness instance: login succeeds with the non-default stored
parameters and stores the key derived with them. -/
theorem claim_C7_witness :
    login_with_store c7_kdf c7_check (some c7_auth) "pw" = .ok (some [7]) :=
  claim_C7_login_stored_params c7_kdf c7_check c7_auth "pw" [7] (by rfl) (by rfl)

/-- an item at `sync_version = u64::MAX`, for C8. -/
def c8_item : VaultItem :=
  ⟨1, .password, "a", none, none, [1], [0, 0, 0, 0, 0, 0, 0, 0, 0, 0, 0, 0], u64Max, 0, 0⟩

/-- C8 counterexample: at prior `sync_version = u64::MAX` the saturating bump
leaves the persisted version unchanged, so it is not strictly greater than
the prior one. -/
theorem claim_C8_counterexample :
    (persist_item_update c8_item [2] [1] 9).sync_version = c8_item.sync_version ∧
    ¬ (persist_item_update c8_item [2] [1] 9).sync_version > c8_item.sync_version := by
  have h1 : (persist_item_update c8_item [2] [1] 9).sync_version = c8_item.sync_version := by
    show sat_add1 u64Max = u64Max
    unfold sat_add1 u64Max
    omega
  exact ⟨h1, fun hgt => absurd (h1 ▸ hgt) (lt_irrefl _)⟩

/-- C8 amended: `persist_item_update` (the tail of every successful
`update_password`/`update_note`) persists a strictly larger `sync_version`
whenever the prior version is below `u64::MAX`; at `u64::MAX` the saturating
bump keeps it at `u64::MAX`. -/
theorem claim_C8_version_bump (item : VaultItem) (ciphertext nonce : Bytes) (now : Time) :
    (item.sync_version < u64Max →
       (persist_item_update item ciphertext nonce now).sync_version > item.sync_version) ∧
    (item.sync_version = u64Max →
       (persist_item_update item ciphertext nonce now).sync_version = u64Max) := by
  constructor
  · intro h
    show sat_add1 item.sync_version > item.sync_version
    unfold sat_add1
    omega
  · intro h
    show sat_add1 item.sync_version = u64Max
    unfold sat_add1
    omega

/-- C8 witness instance. -/
theorem claim_C8_witness :
    (persist_item_update c3_item [2] [1] 9).sync_version > c3_item.sync_version :=
  (claim_C8_version_bump c3_item [2] [1] 9).1 (by decide)

/-! The backup round-trip and concrete witness instances. -/

/-- C9: exporting an encrypted backup and importing the produced file under
the same key succeeds and yields exactly the original item list (the foreign
primitives round-trip at the produced values: base64 decode∘encode, AEAD
decrypt∘encrypt, serde deserialize∘serialize; the AEAD nonce is 12 bytes). -/
theorem claim_C9_backup_roundtrip
    (serialize : BackupPayload → Bytes) (encrypt : Key → Bytes → CipherBlob)
    (b64_encode : Bytes → String) (checksum : Bytes → Bytes → String)
    (b64_decode : String → Option Bytes) (decrypt : Key → Bytes → Bytes → Option Bytes)
    (deserialize : Bytes → Option BackupPayload)
    (items : List VaultItem) (key : Key) (exported_at : String)
    (hn : b64_decode (b64_encode
            (encrypt key (serialize ⟨BACKUP_FORMAT_VERSION, exported_at, items⟩)).nonce) =
          some (encrypt key (serialize ⟨BACKUP_FORMAT_VERSION, exported_at, items⟩)).nonce)
    (hlen : (encrypt key (serialize ⟨BACKUP_FORMAT_VERSION, exported_at, items⟩)).nonce.length =
            NONCE_SIZE)
    (hc : b64_decode (b64_encode
            (encrypt key (serialize ⟨BACKUP_FORMAT_VERSION, exported_at, items⟩)).ciphertext) =
          some (encrypt key (serialize ⟨BACKUP_FORMAT_VERSION, exported_at, items⟩)).ciphertext)
    (hdec : decrypt key
              (encrypt key (serialize ⟨BACKUP_FORMAT_VERSION, exported_at, items⟩)).nonce
              (encrypt key (serialize ⟨BACKUP_FORMAT_VERSION, exported_at, items⟩)).ciphertext =
            some (serialize ⟨BACKUP_FORMAT_VERSION, exported_at, items⟩))
    (hser : deserialize (serialize ⟨BACKUP_FORMAT_VERSION, exported_at, items⟩) =
            some ⟨BACKUP_FORMAT_VERSION, exported_at, items⟩) :
    import_encrypted b64_decode checksum decrypt deserialize
        (export_encrypted serialize encrypt b64_encode checksum items key exported_at) key =
      .ok ⟨BACKUP_FORMAT_VERSION, exported_at, items⟩ ∧
    (⟨BACKUP_FORMAT_VERSION, exported_at, items⟩ : BackupPayload).items = items := by
  refine ⟨?_, rfl⟩
  unfold export_encrypted import_encrypted
  simp only [hn, hc, hlen, hdec, hser, bne_self_eq_false, Bool.false_eq_true, if_false,
    if_neg, Bool.not_eq_true]

/-- a 12-byte zero nonce used by concrete instances. -/
def w_nonce : Bytes := [0, 0, 0, 0, 0, 0, 0, 0, 0, 0, 0, 0]

/-- a valid item at `sync_version = 1`, timestamp 0. -/
def w_item1 : VaultItem := ⟨1, .password, "a", none, none, [1], w_nonce, 1, 0, 0⟩

/-- a valid item under the same id at `sync_version = 2`. -/
def w_item2 : VaultItem := ⟨1, .password, "b", none, none, [2], w_nonce, 2, 0, 0⟩

/-- a local index holding the newer item under id 1. -/
def w_lIdx : Uuid → Option SyncState := fun j => if j = 1 then some (.Item w_item2) else none

/-- a remote index holding the older item under id 1. -/
def w_rIdx : Uuid → Option SyncState := fun j => if j = 1 then some (.Item w_item1) else none

/-- an initial loop state over empty repositories. -/
def w_state : Repo × Repo × SyncReport := (⟨[], []⟩, ⟨[], []⟩, SyncReport.empty)

/-- C1 witness instance: the stale remote item loses, with `conflict` and
`replay_blocked` set, and the local repository is untouched. -/
theorem claim_C1_witness :
    resolve_state (w_lIdx 1) (w_rIdx 1) = some ⟨.Item w_item2, true, true⟩ ∧
    (sync_step w_lIdx w_rIdx w_state 1).1 = w_state.1 :=
  (claim_C1_replay_protection w_lIdx w_rIdx 1 (.Item w_item2) (.Item w_item1) w_state
    (by rfl) (by rfl) (by decide)).1 (by decide)

/-- C2 witness instance: after a run that uploaded one item, the second run
reports all zeroes and changes nothing. -/
theorem claim_C2_witness :
    sync_bidirectional ⟨[w_item1], []⟩ ⟨[w_item1], []⟩ =
      (⟨[w_item1], []⟩, ⟨[w_item1], []⟩, .ok SyncReport.empty) :=
  claim_C2_sync_idempotent ⟨[w_item1], []⟩ ⟨[], []⟩ ⟨[w_item1], []⟩ ⟨[w_item1], []⟩
    ⟨1, 0, 0, 0, []⟩ (by decide) (by decide) (by rfl)

/-- a tombstone at the same version and timestamp as `w_item1`, for C5. -/
def w_tomb : SyncTombstone := ⟨1, 0, 1⟩

/-- C5 witness instance: at equal version and timestamp the tombstone beats
the item. -/
theorem claim_C5_witness :
    resolve_state (some (.Tombstone w_tomb)) (some (.Item w_item1)) =
      some ⟨.Tombstone w_tomb, true, false⟩ :=
  ((claim_C5_equal_version (.Tombstone w_tomb) (.Item w_item1) (by decide) (by decide)).2.2
    (by decide)).1 w_tomb w_item1 rfl rfl

/-- an item with empty `encrypted_data` and a 1-byte nonce, for C6. -/
def w_bad : VaultItem := ⟨2, .note, "x", none, none, [], [0], 1, 0, 0⟩

/-- C6 witness instance. -/
theorem claim_C6_witness :
    sync_bidirectional ⟨[w_bad], []⟩ ⟨[], []⟩ =
      (⟨[w_bad], []⟩, ⟨[], []⟩, .error (.Config "sync rejected invalid encrypted payload")) :=
  claim_C6_validation ⟨[w_bad], []⟩ ⟨[], []⟩ (.inl (by rfl))

/-- the fixed backup payload used by the C9 witness. -/
def c9_payload : BackupPayload := ⟨1, "t", []⟩

/-- serde serialization for the C9 witness. -/
def c9_serialize : BackupPayload → Bytes := fun _ => [1]

/-- the AEAD for the C9 witness: ciphertext `[1]`, a 12-byte zero nonce. -/
def c9_encrypt : Key → Bytes → CipherBlob := fun _ _ => ⟨[1], w_nonce⟩

/-- base64 encoding for the C9 witness. -/
def c9_b64_encode : Bytes → String := fun bs => if bs.length = 12 then "n" else "c"

/-- the checksum for the C9 witness. -/
def c9_checksum : Bytes → Bytes → String := fun _ _ => "cs"

/-- base64 decoding for the C9 witness, inverse of `c9_b64_encode` at the
produced values. -/
def c9_b64_decode : String → Option Bytes :=
  fun s => if s = "n" then some w_nonce else if s = "c" then some [1] else none

/-- AEAD decryption for the C9 witness. -/
def c9_decrypt : Key → Bytes → Bytes → Option Bytes := fun _ _ _ => some [1]

/-- serde deserialization for the C9 witness. -/
def c9_deserialize : Bytes → Option BackupPayload := fun _ => some c9_payload

/-- C9 witness instance: export then import returns the payload unchanged. -/
theorem claim_C9_witness :
    import_encrypted c9_b64_decode c9_checksum c9_decrypt c9_deserialize
        (export_encrypted c9_serialize c9_encrypt c9_b64_encode c9_checksum [] [9] "t") [9] =
      .ok c9_payload :=
  (claim_C9_backup_roundtrip c9_serialize c9_encrypt c9_b64_encode c9_checksum
    c9_b64_decode c9_decrypt c9_deserialize [] [9] "t"
    (by rfl) (by rfl) (by rfl) (by rfl) (by rfl)).1

/-- a local index holding one item and an empty remote index, for C10. -/
def w10_lIdx : Uuid → Option SyncState := fun j => if j = 1 then some (.Item w_item1) else none

/-- the empty remote index, for C10. -/
def w10_rIdx : Uuid → Option SyncState := fun _ => none

/-- C10 witness instance: the winner is one of the two inputs. -/
theorem claim_C10_witness :
    w10_lIdx 1 = some (SyncState.Item w_item1) ∨ w10_rIdx 1 = some (SyncState.Item w_item1) :=
  (claim_C10_no_fabrication w10_lIdx w10_rIdx w_state 1 ⟨.Item w_item1, false, false⟩ (by rfl)).1

end Chacrab
